import Mathlib

/-!
Verification of the sitemap-crawler source (src/index.ts) against its
natural-language specification.

The development shallow-embeds the program:
* pure helpers (`shuffle`, `validateURL`, the prompt validators, the
  save-results decision) become Lean functions translated line by line from
  the source;
* the concurrent worker pool of `main` becomes a labelled small-step
  transition system (`Step`) over a `RunState` record holding exactly the
  mutable variables of the source (`urlQueue`, `processed`, `statusCounts`,
  `non200Urls`, `parsedUrls`, `isPaused`, and each worker's control point).
  Workers interleave cooperatively, suspending at the `await` points of the
  source (the HTTP call, the inter-request delay, the paused wait), which is
  exactly the granularity of the JavaScript event loop; the model also allows
  a yield between consecutive synchronous iterations, which only adds
  interleavings and therefore only strengthens the universally quantified
  theorems.
* HTTP responses are an oracle (`FetchOutcome`) chosen nondeterministically
  at each completion step.
-/

namespace SitemapCrawler

/-- Record of one observation, from the `URLStatus` interface (lines 6 to 9):
a URL together with the HTTP status observed for it. -/
structure URLStatus where
  url : String
  status : Nat
deriving Repr, DecidableEq

/-- Outcome of the single `axios.get(url)` a validation performs: either a
response arrived carrying an HTTP status code, or the transport failed, in
which case the thrown error optionally carries a response status
(`error.response?.status`). -/
inductive FetchOutcome where
  /-- A response arrived; `status` is `response.status`. -/
  | success (status : Nat)
  /-- Transport failure; `respStatus` models `error.response?.status`
  (`none` when the error carries no response). -/
  | failure (respStatus : Option Nat)
deriving Repr, DecidableEq

/-- Result of one `validateURL` call: the returned record together with the
two shared collections after the call. -/
structure ValidateResult where
  result : URLStatus
  non200Urls : List URLStatus
  parsedUrls : List URLStatus
deriving Repr, DecidableEq

/-- Embeds `validateURL` (lines 76 to 91).  The shared module-level arrays
`non200Urls` and `parsedUrls` are passed and returned explicitly.  On a
response, a record is pushed to `non200Urls` when `response.status !== 200`
and always pushed to `parsedUrls`.  On a caught transport error the status is
`error.response?.status || 500` (JavaScript `||` falls back to 500 when the
carried status is absent or is the falsy number 0) and the record is pushed
only to `non200Urls`.  The function always returns a record: the catch block
never rethrows. -/
def validateURL (url : String) (outcome : FetchOutcome)
    (non200Urls parsedUrls : List URLStatus) : ValidateResult :=
  match outcome with
  | .success status =>
      let non200 := if status ≠ 200 then non200Urls ++ [⟨url, status⟩] else non200Urls
      { result := ⟨url, status⟩
        non200Urls := non200
        parsedUrls := parsedUrls ++ [⟨url, status⟩] }
  | .failure respStatus =>
      let status :=
        match respStatus with
        | some s => if s = 0 then 500 else s
        | none => 500
      { result := ⟨url, status⟩
        non200Urls := non200Urls ++ [⟨url, status⟩]
        parsedUrls := parsedUrls }

/-- Swap of the elements at positions `i` and `j`, embedding the three
assignments of lines 55 to 57 (`temporaryValue` = element at `currentIndex`;
element at `currentIndex` := element at `randomIndex`; element at
`randomIndex` := `temporaryValue`): both reads happen before either write.
When an index is out of range the list is returned unchanged (the source
never reaches that case: `Math.floor(Math.random() * c)` lies in `[0, c)`). -/
def listSwap (l : List α) (i j : Nat) : List α :=
  match l[i]?, l[j]? with
  | some a, some b => (l.set i b).set j a
  | _, _ => l

/-- Embeds the while loop of `shuffle` (lines 48 to 58).  The first argument of
`rand` is the pre-decrement `currentIndex`, so `rand c` models
`Math.floor(Math.random() * c)`.  Each iteration draws `randomIndex`,
decrements `currentIndex`, and swaps the elements at the two positions. -/
def shuffleLoop (rand : Nat → Nat) : Nat → List α → List α
  | 0, newArray => newArray
  | currentIndex + 1, newArray =>
      let randomIndex := rand (currentIndex + 1)
      shuffleLoop rand currentIndex (listSwap newArray currentIndex randomIndex)

/-- Embeds `shuffle` (lines 42 to 61): the source first copies its argument
(`const newArray = [...array]`, line 43) and runs the swap loop on the copy,
which it returns. -/
def shuffle (rand : Nat → Nat) (array : List α) : List α :=
  let newArray := array
  shuffleLoop rand newArray.length newArray

/-- Same loop, but threading the caller's array object alongside the copy:
the first component is the argument array, the second is `newArray`.  Every
write of the source loop (lines 55 to 57) indexes `newArray`, so only the
second component is ever updated. -/
def shuffleCallLoop (rand : Nat → Nat) : Nat → List α × List α → List α × List α
  | 0, st => st
  | currentIndex + 1, st =>
      let randomIndex := rand (currentIndex + 1)
      shuffleCallLoop rand currentIndex (st.1, listSwap st.2 currentIndex randomIndex)

/-- Embeds a call `shuffle(array)` as seen from the caller: returns the pair
(returned array, caller's array object after the call).  The copy on line 43
is the starting value of the second loop component. -/
def shuffleCall (rand : Nat → Nat) (array : List α) : List α × List α :=
  let st := shuffleCallLoop rand array.length (array, array)
  (st.2, st.1)

/-- Embeds lines 218 to 224 of `main`: after `fetchSitemap` yields `urls`,
the statement `if (traversalOrder === 'random') shuffle(urls);` evaluates
`shuffle(urls)` and discards the returned array (line 219), after which
`const urlQueue = [...urls]` copies `urls` into the queue (line 224).  The
value returned here is the content of `urlQueue` as the workers start. -/
def initialUrlQueue (traversalOrder : String) (rand : Nat → Nat)
    (urls : List String) : List String :=
  let urlsAfter := if traversalOrder = "random" then (shuffleCall rand urls).2 else urls
  let urlQueue := urlsAfter
  urlQueue

/-- Value of a JavaScript numeric string, represented exactly: the denoted
number is `num / 10 ^ scale`.  Decimal strings denote such values exactly,
and every comparison the source performs against the integer bounds 0, 15 and
250 is decided exactly by cross-multiplication, so no floating-point rounding
is observable in the validators. -/
structure JsDecimal where
  num : Nat
  scale : Nat
deriving Repr, DecidableEq

/-- Numeric value of a list of decimal digit characters, or `none` when some
character is not a digit. -/
def parseDigits : List Char → Option Nat
  | [] => none
  | cs =>
      if cs.all Char.isDigit then
        some (cs.foldl (fun n c => 10 * n + (c.toNat - Char.toNat (Char.ofNat 48))) 0)
      else none

/-- Models the JavaScript `Number(string)` coercion on the string shapes the
configuration prompts can meet: the empty string coerces to 0, a string of
decimal digits with at most one decimal point (at least one digit overall)
coerces to the denoted decimal value, and anything else is NaN (`none`).
Signs, exponents, hex forms and whitespace trimming are outside the shapes
compared here and map to `none`. -/
def jsNumber (s : String) : Option JsDecimal :=
  let cs := s.data
  if cs.isEmpty then some ⟨0, 0⟩
  else
    match cs.splitOn (Char.ofNat 46) with
    | [intPart] => (parseDigits intPart).map (fun n => ⟨n, 0⟩)
    | [intPart, fracPart] =>
        if intPart.isEmpty && fracPart.isEmpty then none
        else
          match (if intPart.isEmpty then some 0 else parseDigits intPart),
                (if fracPart.isEmpty then some 0 else parseDigits fracPart) with
          | some i, some f => some ⟨i * 10 ^ fracPart.length + f, fracPart.length⟩
          | _, _ => none
    | _ => none

/-- Models the JavaScript comparison `Number(input) > bound` for a natural
bound: false on NaN, exact cross-multiplied comparison otherwise. -/
def jsNumGT (v : Option JsDecimal) (bound : Nat) : Bool :=
  match v with
  | some d => decide (bound * 10 ^ d.scale < d.num)
  | none => false

/-- Models the JavaScript comparison `Number(input) < bound` for a natural
bound: false on NaN, exact cross-multiplied comparison otherwise. -/
def jsNumLT (v : Option JsDecimal) (bound : Nat) : Bool :=
  match v with
  | some d => decide (d.num < bound * 10 ^ d.scale)
  | none => false

/-- Embeds `ask` (lines 16 to 28) restricted to its data flow: the resolved
answer is `answer || String(def)`, that is, the default replaces an empty
answer. -/
def ask (defaultAnswer : String) (answer : String) : String :=
  if answer = "" then defaultAnswer else answer

/-- Embeds `validateAsk` (lines 30 to 40) over the stream of raw operator
answers: the do-while loop keeps asking until the validator accepts, so the
result is the first (default-substituted) answer the validator accepts;
`none` models a stream exhausted before any answer is accepted (the source
would still be prompting). -/
def validateAsk (defaultAnswer : String) (validator : String → Bool) :
    List String → Option String
  | [] => none
  | a :: rest =>
      let answer := ask defaultAnswer a
      if validator answer then some answer else validateAsk defaultAnswer validator rest

/-- Validator of the sitemap URL prompt (line 159):
`input.startsWith('http')`, embedded over the character list. -/
def sitemapUrlValidator (input : String) : Bool :=
  List.isPrefixOf "http".data input.data

/-- Validator of the concurrency prompt (line 164):
`Number(input) > 0 && Number(input) < 15`. -/
def concurrencyLimitValidator (input : String) : Bool :=
  jsNumGT (jsNumber input) 0 && jsNumLT (jsNumber input) 15

/-- Validator of the request-delay prompt (line 169): `Number(input) > 250`. -/
def requestDelayValidator (input : String) : Bool :=
  jsNumGT (jsNumber input) 250

/-- Validator of the traversal-order prompt (line 174):
`['random', 'sequential'].includes(input)`. -/
def traversalOrderValidator (input : String) : Bool :=
  List.contains ["random", "sequential"] input

/-- Truth of `Number(input)` denoting exactly the integer `n`. -/
def denotesInteger (v : Option JsDecimal) (n : Nat) : Bool :=
  match v with
  | some d => decide (d.num = n * 10 ^ d.scale)
  | none => false

/-- Reading of the C8 claim for the concurrency prompt, following the claim
words: the input is accepted exactly when it is an integer between 1 and 14
inclusive.  Stated over the embedded `Number` coercion so it can be compared
with the source validator. -/
def concurrencyClaimAccepts (input : String) : Prop :=
  ∃ n ∈ List.range 15, 1 ≤ n ∧ denotesInteger (jsNumber input) n = true

/-- Lowercasing of a string, modeling `String.prototype.toLowerCase` on the
ASCII answers compared by the source. -/
def jsToLowerCase (s : String) : String :=
  String.mk (s.data.map Char.toLower)

/-- Embeds `saveResults` (lines 185 to 205) as the list of filenames written:
the prompt answer defaults to `Y` when empty (line 186); when its lowercasing
is exactly `y` both files are written (lines 199 and 200), otherwise none. -/
def saveResults (answer non200fileName parsedFileName : String) : List String :=
  let saveAnswer := ask "Y" answer
  if jsToLowerCase saveAnswer = "y" then [non200fileName, parsedFileName] else []

/-- Control point of one worker between suspension points of the `worker`
loop (lines 228 to 252).  `idle` is the loop head, about to test
`urlQueue.length > 0`; `fetching url` is suspended inside `validateURL(url)`
awaiting `axios.get`; `delaying` is suspended in `delay(requestDelay)`;
`done` is after the loop exits. -/
inductive WorkerPC where
  | idle
  | fetching (url : String)
  | delaying
  | done
deriving Repr, DecidableEq

/-- Shared state of a run of `main` (lines 214 to 264): the queue, the
counters and collections mutated by the workers, the pause flag, and every
worker's control point. -/
structure RunState where
  urlQueue : List String
  processed : Nat
  statusCounts : List (Nat × Nat)
  non200Urls : List URLStatus
  parsedUrls : List URLStatus
  isPaused : Bool
  workers : List WorkerPC
deriving Repr, DecidableEq

/-- Lookup in the status histogram, modeling `statusCounts[s] || 0`: a key
never written reads as 0. -/
def histGet (h : List (Nat × Nat)) (code : Nat) : Nat :=
  match h.lookup code with
  | some n => n
  | none => 0

/-- Update of the status histogram, modeling
`statusCounts[result.status] = (statusCounts[result.status] || 0) + 1`
(line 240): the entry for the key is incremented, a missing key being first
read as 0 so its entry appears with value 1. -/
def histBump : List (Nat × Nat) → Nat → List (Nat × Nat)
  | [], code => [(code, 1)]
  | (k, v) :: rest, code =>
      if k = code then (k, v + 1) :: rest else (k, v) :: histBump rest code

/-- Total of the histogram over all keys. -/
def histTotal (h : List (Nat × Nat)) : Nat :=
  (h.map Prod.snd).sum

/-- State at line 254, just before the workers start: the queue holds the
input list, counters and collections are empty, `isPaused` is false
(line 153), and `concurrencyLimit` workers sit at their loop head. -/
def initState (urls : List String) (concurrencyLimit : Nat) : RunState :=
  { urlQueue := urls
    processed := 0
    statusCounts := []
    non200Urls := []
    parsedUrls := []
    isPaused := false
    workers := List.replicate concurrencyLimit .idle }

/-- Fixed sleep used by a worker that observes the pause flag set
(`await delay(1000)`, line 231). -/
def pausedRecheckDelayMs : Nat := 1000

/-- Observable event labels of the transition system.  A `pop` label marks
the atomic block in which a worker shifts a URL off the queue and immediately
invokes `validateURL` on it (lines 234 to 238 contain no suspension point
before the HTTP call starts); `popSkip` marks the shift of an empty-string
URL, which the `if (url)` guard (line 237) then skips without validating. -/
inductive Label where
  | exitLoop (i : Nat)
  | pauseWait (i : Nat)
  | pop (i : Nat) (url : String)
  | popSkip (i : Nat)
  | complete (i : Nat) (outcome : FetchOutcome)
  | wake (i : Nat)
  | setPause (b : Bool)
deriving Repr, DecidableEq

/-- Worker index performing a label, if any (`setPause` is the external
operator control the pause flag is read for; the source declares the flag at
line 153 and reads it at line 230 but wires no input source to it). -/
def actorOf : Label → Option Nat
  | .exitLoop i => some i
  | .pauseWait i => some i
  | .pop i _ => some i
  | .popSkip i => some i
  | .complete i _ => some i
  | .wake i => some i
  | .setPause _ => none

/-- Small-step transition relation of the worker pool, one constructor per
atomic block of the `worker` loop (lines 228 to 252) between suspension
points:
* `exitLoop`: the `while (urlQueue.length > 0)` test fails and the worker
  returns (note the test precedes the pause check, so an empty queue ends the
  worker even while paused);
* `pauseWait`: the queue is non-empty but `isPaused` holds, so the worker
  only sleeps `delay(1000)` and loops (line 230 to 232), touching nothing;
* `pop`: queue non-empty, not paused: the worker shifts the head URL and (it
  being truthy) synchronously enters `validateURL`, suspending at the HTTP
  call;
* `popSkip`: same shift, but the head is the empty string, so `if (url)`
  skips the body and the worker is back at the loop head;
* `complete`: the awaited HTTP exchange of worker `i` resolves with some
  outcome; the rest of the iteration (the pushes inside `validateURL`,
  `processed++`, the histogram bump, lines 238 to 248) runs synchronously and
  the worker suspends in `delay(requestDelay)`;
* `wake`: the inter-request delay elapses and the worker is back at the loop
  head;
* `setPause`: the external operator control flips the flag. -/
inductive Step : RunState → Label → RunState → Prop where
  | exitLoop (s : RunState) (i : Nat)
      (hw : s.workers[i]? = some .idle)
      (hq : s.urlQueue = []) :
      Step s (.exitLoop i) { s with workers := s.workers.set i .done }
  | pauseWait (s : RunState) (i : Nat)
      (hw : s.workers[i]? = some .idle)
      (hq : s.urlQueue ≠ [])
      (hp : s.isPaused = true) :
      Step s (.pauseWait i) s
  | pop (s : RunState) (i : Nat) (url : String) (rest : List String)
      (hw : s.workers[i]? = some .idle)
      (hq : s.urlQueue = url :: rest)
      (hp : s.isPaused = false)
      (hu : url ≠ "") :
      Step s (.pop i url)
        { s with urlQueue := rest, workers := s.workers.set i (.fetching url) }
  | popSkip (s : RunState) (i : Nat) (rest : List String)
      (hw : s.workers[i]? = some .idle)
      (hq : s.urlQueue = "" :: rest)
      (hp : s.isPaused = false) :
      Step s (.popSkip i) { s with urlQueue := rest }
  | complete (s : RunState) (i : Nat) (url : String) (outcome : FetchOutcome)
      (hw : s.workers[i]? = some (.fetching url)) :
      Step s (.complete i outcome)
        { s with
            processed := s.processed + 1
            statusCounts := histBump s.statusCounts
              (validateURL url outcome s.non200Urls s.parsedUrls).result.status
            non200Urls := (validateURL url outcome s.non200Urls s.parsedUrls).non200Urls
            parsedUrls := (validateURL url outcome s.non200Urls s.parsedUrls).parsedUrls
            workers := s.workers.set i .delaying }
  | wake (s : RunState) (i : Nat)
      (hw : s.workers[i]? = some .delaying) :
      Step s (.wake i) { s with workers := s.workers.set i .idle }
  | setPause (s : RunState) (b : Bool) :
      Step s (.setPause b) { s with isPaused := b }

/-- Reachability along a recorded trace of labels. -/
inductive Reaches : RunState → List Label → RunState → Prop where
  | refl (s : RunState) : Reaches s [] s
  | snoc {s s₁ s₂ : RunState} {tr : List Label} {l : Label} :
      Reaches s tr s₁ → Step s₁ l s₂ → Reaches s (tr ++ [l]) s₂

/-- Sequence of URLs removed from the queue along a trace, in removal order
(both validated pops and empty-string skips). -/
def popSeq (tr : List Label) : List String :=
  tr.flatMap fun l =>
    match l with
    | .pop _ u => [u]
    | .popSkip _ => [""]
    | _ => []

/-- Sequence of URLs passed to `validateURL` along a trace, in invocation
order. -/
def validatedSeq (tr : List Label) : List String :=
  tr.flatMap fun l =>
    match l with
    | .pop _ u => [u]
    | _ => []

/-- Truth of a worker being suspended inside a `validateURL` call. -/
def isFetching : WorkerPC → Bool
  | .fetching _ => true
  | _ => false

/-- Number of workers currently holding a popped but not yet processed URL. -/
def fetchingCount (ws : List WorkerPC) : Nat :=
  ws.countP isFetching

/-- Final state of the witness run for C3: one worker, one URL, a 200
response. -/
def completionWitnessFinal : RunState :=
  { urlQueue := []
    processed := 1
    statusCounts := [(200, 1)]
    non200Urls := []
    parsedUrls := [⟨"https://a.test/", 200⟩]
    isPaused := false
    workers := [WorkerPC.done] }

/-- Final state of the counterexample run for C3: one worker, the single
input URL is the empty string. -/
def emptyUrlCexFinal : RunState :=
  { urlQueue := []
    processed := 0
    statusCounts := []
    non200Urls := []
    parsedUrls := []
    isPaused := false
    workers := [WorkerPC.done] }

/-- Paused state used as the C6 witness: one idle worker, a non-empty queue,
the flag set. -/
def pausedWitnessState : RunState :=
  { urlQueue := ["https://a.test/"]
    processed := 0
    statusCounts := []
    non200Urls := []
    parsedUrls := []
    isPaused := true
    workers := [WorkerPC.idle] }

/-- Start state used as the C7 witness: one idle worker over an empty
queue. -/
def doneWitnessStart : RunState :=
  { urlQueue := []
    processed := 0
    statusCounts := []
    non200Urls := []
    parsedUrls := []
    isPaused := false
    workers := [WorkerPC.idle] }

/-- Done state reached by the C7 witness worker. -/
def doneWitnessDone : RunState :=
  { doneWitnessStart with workers := [WorkerPC.done] }

/-- C4: on a completed response, `validateURL` returns a record carrying the
response status, appends it to the all-observations collection
unconditionally, and appends it to the non-2xx collection if and only if the
status is not exactly 200 (so 201 and 204 are recorded as non-2xx). -/
theorem validateURL_success_spec (url : String) (status : Nat)
    (non200Urls parsedUrls : List URLStatus) :
    let r := validateURL url (.success status) non200Urls parsedUrls
    r.result = ⟨url, status⟩ ∧
    r.parsedUrls = parsedUrls ++ [r.result] ∧
    (r.non200Urls = non200Urls ++ [r.result] ↔ status ≠ 200) ∧
    (status = 200 → r.non200Urls = non200Urls) := by
  by_cases h : status = 200 <;>
    simp [validateURL, h]

/-- Witness for C4 at status 201 on an empty store: a 201 response is
recorded in both collections (non-2xx narrowness of the source). -/
theorem validateURL_success_spec_witness :
    (validateURL "https://a.test/" (.success 201) [] []).result =
      ⟨"https://a.test/", 201⟩ ∧
    (validateURL "https://a.test/" (.success 201) [] []).parsedUrls =
      [] ++ [(validateURL "https://a.test/" (.success 201) [] []).result] ∧
    ((validateURL "https://a.test/" (.success 201) [] []).non200Urls =
      [] ++ [(validateURL "https://a.test/" (.success 201) [] []).result] ↔
      (201 : Nat) ≠ 200) ∧
    ((201 : Nat) = 200 →
      (validateURL "https://a.test/" (.success 201) [] []).non200Urls =
      ([] : List URLStatus)) :=
  validateURL_success_spec "https://a.test/" 201 [] []

/-- C2: on a transport failure the error is caught, the status is the one
carried on the error response when present (HTTP statuses are nonzero, hence
the hypothesis) and 500 otherwise, and the record is appended only to the
non-2xx collection, leaving the all-observations collection untouched. -/
theorem validateURL_failure_spec (url : String) (respStatus : Option Nat)
    (non200Urls parsedUrls : List URLStatus)
    (h : respStatus ≠ some 0) :
    let r := validateURL url (.failure respStatus) non200Urls parsedUrls
    r.result.url = url ∧
    r.result.status = respStatus.getD 500 ∧
    r.non200Urls = non200Urls ++ [r.result] ∧
    r.parsedUrls = parsedUrls := by
  cases respStatus with
  | none => simp [validateURL]
  | some s =>
      have hs : s ≠ 0 := by
        intro hs0
        exact h (by rw [hs0])
      simp [validateURL, hs]

/-- Witness for C2 at a concrete input: a connection error carrying a 404
response on an empty store. -/
theorem validateURL_failure_spec_witness :
    (validateURL "https://a.test/" (.failure (some 404)) [] []).result.url =
      "https://a.test/" ∧
    (validateURL "https://a.test/" (.failure (some 404)) [] []).result.status =
      (some 404).getD 500 ∧
    (validateURL "https://a.test/" (.failure (some 404)) [] []).non200Urls =
      [] ++ [(validateURL "https://a.test/" (.failure (some 404)) [] []).result] ∧
    (validateURL "https://a.test/" (.failure (some 404)) [] []).parsedUrls =
      ([] : List URLStatus) :=
  validateURL_failure_spec "https://a.test/" (some 404) [] [] (by decide)

lemma count_set_of_getElem? [DecidableEq α] (l : List α) (i : Nat) (a b x : α)
    (h : l[i]? = some a) :
    (l.set i b).count x + (if a = x then 1 else 0) =
      l.count x + (if b = x then 1 else 0) := by
  induction l generalizing i with
  | nil => simp at h
  | cons hd tl ih =>
      cases i with
      | zero =>
          simp only [List.getElem?_cons_zero, Option.some_inj] at h
          subst h
          simp only [List.set_cons_zero, List.count_cons]
          by_cases hax : hd = x <;> by_cases hbx : b = x <;>
            simp [hax, hbx, beq_iff_eq]
      | succ n =>
          simp only [List.getElem?_cons_succ] at h
          have := ih n h
          simp only [List.set_cons_succ, List.count_cons]
          by_cases hhx : hd = x <;> simp [hhx, beq_iff_eq] <;> omega

lemma getElem?_set_self_of_lt (l : List α) (i : Nat) (a : α) (h : i < l.length) :
    (l.set i a)[i]? = some a := by
  simp [List.getElem?_set_self', List.getElem?_eq_getElem, h]

lemma lt_length_of_getElem?_eq_some {l : List α} {i : Nat} {a : α}
    (h : l[i]? = some a) : i < l.length := by
  by_contra hlt
  rw [List.getElem?_eq_none (by omega)] at h
  exact Option.noConfusion h

/-- Whatever the indices, `listSwap` permutes the list. -/
lemma listSwap_perm [DecidableEq α] (l : List α) (i j : Nat) :
    List.Perm (listSwap l i j) l := by
  cases hi : l[i]? with
  | none => simp [listSwap, hi]
  | some a =>
      cases hj : l[j]? with
      | none => simp [listSwap, hi, hj]
      | some b =>
          have hswap : listSwap l i j = (l.set i b).set j a := by
            simp [listSwap, hi, hj]
          rw [hswap, List.perm_iff_count]
          intro x
          have h1 := count_set_of_getElem? l i a b x hi
          have hj2 : (l.set i b)[j]? = some b := by
            by_cases hij : i = j
            · subst hij
              rw [hi] at hj
              have hab : a = b := by injection hj
              subst hab
              exact getElem?_set_self_of_lt l i a (lt_length_of_getElem?_eq_some hi)
            · rw [List.getElem?_set_ne hij]
              exact hj
          have h2 := count_set_of_getElem? (l.set i b) j b a x hj2
          by_cases hax : a = x <;> by_cases hbx : b = x
          · rw [if_pos hax, if_pos hbx] at h1
            rw [if_pos hbx, if_pos hax] at h2
            omega
          · rw [if_pos hax, if_neg hbx] at h1
            rw [if_neg hbx, if_pos hax] at h2
            omega
          · rw [if_neg hax, if_pos hbx] at h1
            rw [if_pos hbx, if_neg hax] at h2
            omega
          · rw [if_neg hax, if_neg hbx] at h1
            rw [if_neg hbx, if_neg hax] at h2
            omega

lemma shuffleCallLoop_eq (rand : Nat → Nat) (n : Nat) (x y : List α) :
    shuffleCallLoop rand n (x, y) = (x, shuffleLoop rand n y) := by
  induction n generalizing y with
  | zero => rfl
  | succ c ih => simp [shuffleCallLoop, shuffleLoop, ih]

lemma shuffleCall_eq (rand : Nat → Nat) (array : List α) :
    shuffleCall rand array = (shuffle rand array, array) := by
  simp [shuffleCall, shuffle, shuffleCallLoop_eq]

lemma shuffleLoop_perm [DecidableEq α] (rand : Nat → Nat) (n : Nat) (l : List α) :
    List.Perm (shuffleLoop rand n l) l := by
  induction n generalizing l with
  | zero => exact List.Perm.refl l
  | succ c ih =>
      exact List.Perm.trans (ih (listSwap l c (rand (c + 1)))) (listSwap_perm l c _)

/-- C9: a call to `shuffle` leaves the argument array unchanged (the source
mutates only the copy made on line 43) and returns a fresh array that is a
permutation of the input. -/
theorem shuffle_no_mutation_and_perm (rand : Nat → Nat) (array : List String) :
    (shuffleCall rand array).2 = array ∧
    List.Perm (shuffleCall rand array).1 array := by
  rw [shuffleCall_eq]
  exact ⟨rfl, shuffleLoop_perm rand array.length array⟩

/-- C1 (code bug): for both traversal orders the queue handed to the workers
is byte-for-byte the fetched URL list; choosing `random` has no effect,
because the shuffled copy returned by `shuffle(urls)` is discarded at line
219.  The last conjunct exhibits the discarded shuffled copy differing from
the queue on a two-element sitemap. -/
theorem random_traversal_queue_unchanged :
    (∀ (rand : Nat → Nat) (urls : List String),
      initialUrlQueue "random" rand urls = urls) ∧
    (∀ (rand : Nat → Nat) (urls : List String),
      initialUrlQueue "sequential" rand urls = urls) ∧
    initialUrlQueue "random" (fun _ => 0) ["https://a.test/", "https://b.test/"] =
      ["https://a.test/", "https://b.test/"] ∧
    (shuffleCall (fun _ => 0) ["https://a.test/", "https://b.test/"]).1 =
      ["https://b.test/", "https://a.test/"] := by
  refine ⟨fun rand urls => ?_, fun rand urls => ?_, ?_, ?_⟩
  · simp [initialUrlQueue, shuffleCall_eq]
  · simp [initialUrlQueue]
  · simp [initialUrlQueue, shuffleCall_eq]
  · rfl

/-- C8 counterexample: the input 7.5 is accepted by the source concurrency
validator (`Number('7.5') > 0 && Number('7.5') < 15` holds) although 7.5 is
not an integer, refuting the claim that acceptance holds exactly for the
integers 1 to 14. -/
theorem concurrency_validator_accepts_non_integer :
    concurrencyLimitValidator "7.5" = true ∧ ¬ concurrencyClaimAccepts "7.5" := by
  constructor
  · rfl
  · show ¬ ∃ n ∈ List.range 15, 1 ≤ n ∧ denotesInteger (jsNumber "7.5") n = true
    decide

/-- C8 (amended): the re-prompt loop returns only answers its validator
accepts and passes over every rejected answer without surfacing an error; the
sitemap URL is accepted exactly when it starts with `http`; the concurrency
limit is accepted exactly when `Number(input)` is a numeric value strictly
between 0 and 15 (every integer 1 to 14 qualifies, but so do non-integers in
range); the request delay is accepted exactly when `Number(input)` is a
numeric value strictly greater than 250; the traversal order is accepted
exactly when it is `random` or `sequential`. -/
theorem askConfigurations_validation_spec :
    (∀ (d : String) (v : String → Bool) (answers : List String) (r : String),
      validateAsk d v answers = some r → v r = true) ∧
    (∀ (d : String) (v : String → Bool) (a : String) (rest : List String),
      v (ask d a) = false → validateAsk d v (a :: rest) = validateAsk d v rest) ∧
    (∀ s : String, sitemapUrlValidator s = true ↔
      List.isPrefixOf "http".data s.data = true) ∧
    (∀ s : String, concurrencyLimitValidator s = true ↔
      ∃ dec, jsNumber s = some dec ∧ 0 < dec.num ∧ dec.num < 15 * 10 ^ dec.scale) ∧
    (∀ n ∈ List.range 15, 1 ≤ n →
      concurrencyLimitValidator (Nat.repr n) = true) ∧
    (∀ s : String, requestDelayValidator s = true ↔
      ∃ dec, jsNumber s = some dec ∧ 250 * 10 ^ dec.scale < dec.num) ∧
    (∀ s : String, traversalOrderValidator s = true ↔
      s = "random" ∨ s = "sequential") := by
  refine ⟨?_, ?_, ?_, ?_, ?_, ?_, ?_⟩
  · intro d v answers r h
    induction answers with
    | nil => exact absurd h (by simp [validateAsk])
    | cons a rest ih =>
        by_cases hv : v (ask d a) = true
        · simp only [validateAsk, hv, if_true] at h
          cases h
          exact hv
        · simp only [validateAsk, Bool.not_eq_true] at hv
          simp only [validateAsk, hv, Bool.false_eq_true, if_false] at h
          exact ih h
  · intro d v a rest h
    simp [validateAsk, h]
  · intro s
    exact Iff.rfl
  · intro s
    constructor
    · intro h
      cases hv : jsNumber s with
      | none => simp [concurrencyLimitValidator, jsNumGT, hv] at h
      | some dec =>
          have h2 : 0 < dec.num ∧ dec.num < 15 * 10 ^ dec.scale := by
            simpa [concurrencyLimitValidator, jsNumGT, jsNumLT, hv] using h
          exact ⟨dec, rfl, h2.1, h2.2⟩
    · rintro ⟨dec, hdec, h0, h15⟩
      simp [concurrencyLimitValidator, jsNumGT, jsNumLT, hdec, h0, h15]
  · decide
  · intro s
    constructor
    · intro h
      cases hv : jsNumber s with
      | none => simp [requestDelayValidator, jsNumGT, hv] at h
      | some dec =>
          exact ⟨dec, rfl, by simpa [requestDelayValidator, jsNumGT, hv] using h⟩
    · rintro ⟨dec, hdec, h250⟩
      simp [requestDelayValidator, jsNumGT, hdec, h250]
  · intro s
    constructor
    · intro h
      simpa [traversalOrderValidator, List.contains, or_comm] using h
    · intro h
      rcases h with h | h <;> simp [traversalOrderValidator, h]

/-- Witness for C8 at concrete inputs: the rejected answer `abc` makes the
loop re-prompt, and instantiating the concurrency characterization at the
accepted literal `7`. -/
theorem askConfigurations_validation_spec_witness :
    validateAsk "5" concurrencyLimitValidator ("abc" :: ["7"]) =
      validateAsk "5" concurrencyLimitValidator ["7"] :=
  askConfigurations_validation_spec.2.1 "5" concurrencyLimitValidator "abc" ["7"]
    (by rfl)

/-- C10: the two result files are written if and only if the save-results
answer, lowercased, is exactly `y`; the empty answer defaults to `Y` and
saves; `yes` (and any other non-`y` answer) writes nothing. -/
theorem saveResults_spec :
    (∀ a n p : String, saveResults a n p = [n, p] ↔ jsToLowerCase (ask "Y" a) = "y") ∧
    (∀ a n p : String, saveResults a n p = [] ↔ jsToLowerCase (ask "Y" a) ≠ "y") ∧
    saveResults "" "non200-urls.json" "parsed-urls.json" =
      ["non200-urls.json", "parsed-urls.json"] ∧
    saveResults "yes" "non200-urls.json" "parsed-urls.json" = [] ∧
    saveResults "Y" "non200-urls.json" "parsed-urls.json" =
      ["non200-urls.json", "parsed-urls.json"] ∧
    saveResults "YES" "non200-urls.json" "parsed-urls.json" = [] := by
  refine ⟨?_, ?_, rfl, rfl, rfl, rfl⟩
  · intro a n p
    by_cases h : jsToLowerCase (ask "Y" a) = "y" <;> simp [saveResults, h]
  · intro a n p
    by_cases h : jsToLowerCase (ask "Y" a) = "y" <;> simp [saveResults, h]

lemma countP_set (p : α → Bool) (l : List α) (i : Nat) (a b : α)
    (h : l[i]? = some b) :
    (l.set i a).countP p + (if p b then 1 else 0) =
      l.countP p + (if p a then 1 else 0) := by
  induction l generalizing i with
  | nil => simp at h
  | cons hd tl ih =>
      cases i with
      | zero =>
          simp only [List.getElem?_cons_zero, Option.some_inj] at h
          subst h
          simp only [List.set_cons_zero, List.countP_cons]
          by_cases hp : p hd <;> by_cases hq : p a <;> simp [hp, hq]
      | succ n =>
          simp only [List.getElem?_cons_succ] at h
          have := ih n h
          simp only [List.set_cons_succ, List.countP_cons]
          by_cases hp : p hd <;> simp [hp] <;> omega

lemma histTotal_histBump (h : List (Nat × Nat)) (code : Nat) :
    histTotal (histBump h code) = histTotal h + 1 := by
  induction h with
  | nil => rfl
  | cons kv rest ih =>
      obtain ⟨k, v⟩ := kv
      by_cases hk : k = code <;>
        simp [histBump, histTotal, hk] at ih ⊢ <;> omega

lemma histGet_cons (k v : Nat) (rest : List (Nat × Nat)) (code : Nat) :
    histGet ((k, v) :: rest) code = if code = k then v else histGet rest code := by
  by_cases h : code = k
  · simp [histGet, List.lookup, h]
  · have hb : (code == k) = false := by simpa using h
    simp [histGet, List.lookup, hb, h]

lemma histGet_histBump (h : List (Nat × Nat)) (code code₂ : Nat) :
    histGet (histBump h code) code₂ =
      histGet h code₂ + (if code₂ = code then 1 else 0) := by
  induction h with
  | nil =>
      rw [show histBump [] code = [(code, 1)] from rfl, histGet_cons]
      by_cases hc : code₂ = code <;> simp [hc, histGet, List.lookup]
  | cons kv rest ih =>
      obtain ⟨k, v⟩ := kv
      by_cases hk : k = code
      · subst hk
        have hb : histBump ((k, v) :: rest) k = (k, v + 1) :: rest := by
          simp [histBump]
        rw [hb, histGet_cons, histGet_cons]
        by_cases hc : code₂ = k <;> simp [hc]
      · simp only [histBump, if_neg hk]
        rw [histGet_cons, histGet_cons, ih]
        by_cases hc : code₂ = k
        · have hc2 : ¬ code₂ = code := by omega
          simp [hc, hc2, hk]
        · simp [hc]

lemma popSeq_append (tr₁ tr₂ : List Label) :
    popSeq (tr₁ ++ tr₂) = popSeq tr₁ ++ popSeq tr₂ := by
  simp [popSeq]

lemma validatedSeq_append (tr₁ tr₂ : List Label) :
    validatedSeq (tr₁ ++ tr₂) = validatedSeq tr₁ ++ validatedSeq tr₂ := by
  simp [validatedSeq]

lemma validatedSeq_eq_popSeq (tr : List Label) (h : "" ∉ popSeq tr) :
    validatedSeq tr = popSeq tr := by
  induction tr with
  | nil => rfl
  | cons l rest ih =>
      have hstep : popSeq (l :: rest) = popSeq [l] ++ popSeq rest := by
        simpa using popSeq_append [l] rest
      have hstep₂ : validatedSeq (l :: rest) = validatedSeq [l] ++ validatedSeq rest := by
        simpa using validatedSeq_append [l] rest
      rw [hstep] at h
      simp only [List.mem_append] at h
      push_neg at h
      rw [hstep, hstep₂, ih h.2]
      congr 1
      cases l with
      | popSkip i =>
          exact absurd (show ("" : String) ∈ popSeq [Label.popSkip i] by
            simp [popSeq]) h.1
      | pop i u => rfl
      | exitLoop i => rfl
      | pauseWait i => rfl
      | complete i o => rfl
      | wake i => rfl
      | setPause b => rfl

/-- Global invariant of every reachable state of a run: the URLs removed so
far followed by the pending queue reconstruct the input in order; the
processed counter plus the in-flight validations counts the validator
invocations; once any worker is done the queue is empty; the histogram total
tracks the processed counter; and the pool size never changes. -/
lemma run_invariant (urls : List String) (k : Nat) (tr : List Label)
    (s : RunState) (h : Reaches (initState urls k) tr s) :
    popSeq tr ++ s.urlQueue = urls ∧
    s.processed + fetchingCount s.workers = (validatedSeq tr).length ∧
    ((∃ pc ∈ s.workers, pc = WorkerPC.done) → s.urlQueue = []) ∧
    histTotal s.statusCounts = s.processed ∧
    s.workers.length = k := by
  induction h with
  | refl =>
      refine ⟨by simp [popSeq, initState], ?_, ?_, by simp [initState, histTotal], by simp [initState]⟩
      · have hz : (List.replicate k WorkerPC.idle).countP isFetching = 0 :=
          List.countP_eq_zero.mpr (fun a ha => by
            rw [List.eq_of_mem_replicate ha]
            simp [isFetching])
        simpa [initState, validatedSeq, fetchingCount] using hz
      · rintro ⟨pc, hpc, hdone⟩
        subst hdone
        simp only [initState] at hpc
        exact absurd (List.eq_of_mem_replicate hpc) (by simp)
  | snoc hr hs ih =>
      obtain ⟨ih1, ih2, ih3, ih4, ih5⟩ := ih
      cases hs with
      | exitLoop i hw hq =>
          have hcnt := countP_set isFetching _ i WorkerPC.done WorkerPC.idle hw
          refine ⟨?_, ?_, ?_, by simpa using ih4, by simpa using ih5⟩
          · simpa [popSeq_append, popSeq] using ih1
          · have h0 : validatedSeq [Label.exitLoop i] = [] := rfl
            rw [validatedSeq_append, h0, List.append_nil]
            simp only [fetchingCount, isFetching] at hcnt ih2 ⊢
            simp at hcnt
            omega
          · intro _
            simpa using hq
      | pauseWait i hw hq hp =>
          refine ⟨?_, ?_, ih3, ih4, ih5⟩
          · simpa [popSeq_append, popSeq] using ih1
          · simpa [validatedSeq_append, validatedSeq] using ih2
      | pop i url rest hw hq hp hu =>
          have hcnt := countP_set isFetching _ i (WorkerPC.fetching url)
            WorkerPC.idle hw
          refine ⟨?_, ?_, ?_, by simpa using ih4, by simpa using ih5⟩
          · rw [hq] at ih1
            simpa [popSeq_append, popSeq] using ih1
          · have h0 : validatedSeq [Label.pop i url] = [url] := rfl
            rw [validatedSeq_append, h0]
            simp only [List.length_append, List.length_cons, List.length_nil]
            simp only [fetchingCount, isFetching] at hcnt ih2 ⊢
            simp at hcnt
            omega
          · rintro ⟨pc, hpc, hdone⟩
            subst hdone
            rcases List.mem_or_eq_of_mem_set (by simpa using hpc) with hmem | habs
            · rw [ih3 ⟨_, hmem, rfl⟩] at hq
              exact absurd hq (by simp)
            · exact absurd habs (by simp)
      | popSkip i rest hw hq hp =>
          refine ⟨?_, ?_, ?_, by simpa using ih4, by simpa using ih5⟩
          · rw [hq] at ih1
            simpa [popSeq_append, popSeq] using ih1
          · simpa [validatedSeq_append, validatedSeq] using ih2
          · rintro ⟨pc, hpc, hdone⟩
            subst hdone
            rw [ih3 ⟨_, by simpa using hpc, rfl⟩] at hq
            exact absurd hq (by simp)
      | complete i url outcome hw =>
          have hcnt := countP_set isFetching _ i WorkerPC.delaying
            (WorkerPC.fetching url) hw
          refine ⟨?_, ?_, ?_, ?_, by simpa using ih5⟩
          · simpa [popSeq_append, popSeq] using ih1
          · have h0 : validatedSeq [Label.complete i outcome] = [] := rfl
            rw [validatedSeq_append, h0, List.append_nil]
            simp only [fetchingCount, isFetching] at hcnt ih2 ⊢
            simp at hcnt
            omega
          · rintro ⟨pc, hpc, hdone⟩
            subst hdone
            rcases List.mem_or_eq_of_mem_set (by simpa using hpc) with hmem | habs
            · simpa using ih3 ⟨_, hmem, rfl⟩
            · exact absurd habs (by simp)
          · simpa [histTotal_histBump] using ih4
      | wake i hw =>
          have hcnt := countP_set isFetching _ i WorkerPC.idle
            WorkerPC.delaying hw
          refine ⟨?_, ?_, ?_, by simpa using ih4, by simpa using ih5⟩
          · simpa [popSeq_append, popSeq] using ih1
          · have h0 : validatedSeq [Label.wake i] = [] := rfl
            rw [validatedSeq_append, h0, List.append_nil]
            simp only [fetchingCount, isFetching] at hcnt ih2 ⊢
            simp at hcnt
            omega
          · rintro ⟨pc, hpc, hdone⟩
            subst hdone
            rcases List.mem_or_eq_of_mem_set (by simpa using hpc) with hmem | habs
            · simpa using ih3 ⟨_, hmem, rfl⟩
            · exact absurd habs (by simp)
      | setPause b =>
          refine ⟨?_, ?_, ih3, ih4, ih5⟩
          · simpa [popSeq_append, popSeq] using ih1
          · simpa [validatedSeq_append, validatedSeq] using ih2

/-- C3 (amended): for every run whose input contains no empty-string URL and
whose pool has at least one worker, when every worker has reached Done the
sequence of URLs passed to the Validator is exactly the input sequence (each
input URL validated exactly once, no duplicates, no omissions), the processed
counter equals the input count, and the queue is empty. -/
theorem run_completion (urls : List String) (k : Nat) (tr : List Label)
    (s : RunState)
    (hne : "" ∉ urls) (hk : 0 < k)
    (hr : Reaches (initState urls k) tr s)
    (hdone : ∀ pc ∈ s.workers, pc = WorkerPC.done) :
    validatedSeq tr = urls ∧ s.processed = urls.length ∧ s.urlQueue = [] := by
  obtain ⟨h1, h2, h3, h4, h5⟩ := run_invariant urls k tr s hr
  have hne₂ : s.workers ≠ [] := by
    intro hnil
    rw [hnil] at h5
    simp at h5
    omega
  obtain ⟨pc, hpc⟩ := List.exists_mem_of_ne_nil s.workers hne₂
  have hdmem : WorkerPC.done ∈ s.workers := by
    have h := hdone pc hpc
    rw [← h]
    exact hpc
  have hqe : s.urlQueue = [] := h3 ⟨_, hdmem, rfl⟩
  rw [hqe, List.append_nil] at h1
  have hnoskip : "" ∉ popSeq tr := by
    rw [h1]
    exact hne
  have hvs : validatedSeq tr = urls := by
    rw [validatedSeq_eq_popSeq tr hnoskip, h1]
  refine ⟨hvs, ?_, hqe⟩
  have hfz : fetchingCount s.workers = 0 :=
    List.countP_eq_zero.mpr (fun a ha => by
      rw [hdone a ha]
      simp [isFetching])
  rw [hfz, Nat.add_zero, hvs] at h2
  exact h2

lemma completion_witness_reach :
    Reaches (initState ["https://a.test/"] 1)
      [Label.pop 0 "https://a.test/", Label.complete 0 (.success 200),
        Label.wake 0, Label.exitLoop 0]
      completionWitnessFinal := by
  have r1 := Reaches.snoc (Reaches.refl (initState ["https://a.test/"] 1))
    (Step.pop _ 0 "https://a.test/" [] rfl rfl rfl (by decide))
  have r2 := Reaches.snoc r1 (Step.complete _ 0 "https://a.test/" (.success 200) rfl)
  have r3 := Reaches.snoc r2 (Step.wake _ 0 rfl)
  exact Reaches.snoc r3 (Step.exitLoop _ 0 rfl rfl)

/-- Witness for C3 at a concrete run: one worker drains a one-URL sitemap. -/
theorem run_completion_witness :
    validatedSeq [Label.pop 0 "https://a.test/", Label.complete 0 (.success 200),
        Label.wake 0, Label.exitLoop 0] = ["https://a.test/"] ∧
    completionWitnessFinal.processed = (["https://a.test/"] : List String).length ∧
    completionWitnessFinal.urlQueue = [] :=
  run_completion ["https://a.test/"] 1 _ completionWitnessFinal (by decide)
    (by decide) completion_witness_reach (by decide)

/-- C3 counterexample: on the input consisting of the single empty-string
URL, a complete run (all workers Done, queue drained) invokes the Validator
on nothing — the `if (url)` guard at line 237 skips the falsy empty string —
and finishes with `processed` 0, not the input count 1. -/
theorem empty_url_skipped_cex :
    Reaches (initState [""] 1) [Label.popSkip 0, Label.exitLoop 0] emptyUrlCexFinal ∧
    (∀ pc ∈ emptyUrlCexFinal.workers, pc = WorkerPC.done) ∧
    validatedSeq [Label.popSkip 0, Label.exitLoop 0] = [] ∧
    emptyUrlCexFinal.processed ≠ ([""] : List String).length := by
  refine ⟨?_, by decide, rfl, by decide⟩
  have r1 := Reaches.snoc (Reaches.refl (initState [""] 1))
    (Step.popSkip (initState [""] 1) 0 [] rfl rfl rfl)
  exact Reaches.snoc r1 (Step.exitLoop _ 0 rfl rfl)

/-- C5: in every reachable state of every run, the histogram total over all
keys equals the processed counter; and across every single step, every
histogram key either keeps its count or increments it by exactly one (keys
absent read as 0, so a new key appears at 0 + 1 = 1; nothing ever
decrements). -/
theorem histogram_total_and_monotone :
    (∀ (urls : List String) (k : Nat) (tr : List Label) (s : RunState),
      Reaches (initState urls k) tr s → histTotal s.statusCounts = s.processed) ∧
    (∀ (s : RunState) (l : Label) (s₂ : RunState), Step s l s₂ → ∀ code : Nat,
      histGet s₂.statusCounts code = histGet s.statusCounts code ∨
      histGet s₂.statusCounts code = histGet s.statusCounts code + 1) := by
  constructor
  · intro urls k tr s hr
    exact (run_invariant urls k tr s hr).2.2.2.1
  · intro s l s₂ hs code
    cases hs with
    | exitLoop i hw hq => exact Or.inl rfl
    | pauseWait i hw hq hp => exact Or.inl rfl
    | pop i url rest hw hq hp hu => exact Or.inl rfl
    | popSkip i rest hw hq hp => exact Or.inl rfl
    | wake i hw => exact Or.inl rfl
    | setPause b => exact Or.inl rfl
    | complete i url outcome hw =>
        have h := histGet_histBump s.statusCounts
          (validateURL url outcome s.non200Urls s.parsedUrls).result.status code
        by_cases hc : code = (validateURL url outcome s.non200Urls s.parsedUrls).result.status
        · right
          simpa [hc] using h
        · left
          simpa [hc] using h

/-- Witness for C5: instantiating the reachable-state part at the initial
state of a run and the per-step part at a concrete completion step. -/
theorem histogram_total_and_monotone_witness :
    histTotal (initState ["https://a.test/"] 1).statusCounts =
      (initState ["https://a.test/"] 1).processed :=
  histogram_total_and_monotone.1 ["https://a.test/"] 1 [] (initState ["https://a.test/"] 1)
    (Reaches.refl _)

/-- C6: from any state in which the pause flag is set, no transition pops a
URL from the queue or invokes the Validator (a `pop` label is exactly the
atomic shift-and-validate block, and `popSkip` the shift of an empty URL):
the queue is untouched by every possible step, and the paused worker merely
sleeps the fixed 1000 ms before re-checking.  In-flight validations started
before the flag was set may still complete; no URL is lost or duplicated
across the pause because the queue is unchanged. -/
theorem paused_blocks_queue_and_validator (s : RunState) (l : Label)
    (s₂ : RunState)
    (hp : s.isPaused = true) (hs : Step s l s₂) :
    s₂.urlQueue = s.urlQueue ∧
    (∀ (i : Nat) (u : String), l ≠ Label.pop i u) ∧
    (∀ i : Nat, l ≠ Label.popSkip i) ∧
    pausedRecheckDelayMs = 1000 := by
  cases hs with
  | exitLoop i hw hq =>
      exact ⟨rfl, fun i u h => Label.noConfusion h, fun i h => Label.noConfusion h, rfl⟩
  | pauseWait i hw hq hp₂ =>
      exact ⟨rfl, fun i u h => Label.noConfusion h, fun i h => Label.noConfusion h, rfl⟩
  | pop i url rest hw hq hpf hu =>
      rw [hp] at hpf
      exact Bool.noConfusion hpf
  | popSkip i rest hw hq hpf =>
      rw [hp] at hpf
      exact Bool.noConfusion hpf
  | complete i url outcome hw =>
      exact ⟨rfl, fun i u h => Label.noConfusion h, fun i h => Label.noConfusion h, rfl⟩
  | wake i hw =>
      exact ⟨rfl, fun i u h => Label.noConfusion h, fun i h => Label.noConfusion h, rfl⟩
  | setPause b =>
      exact ⟨rfl, fun i u h => Label.noConfusion h, fun i h => Label.noConfusion h, rfl⟩

/-- Witness for C6: the only move of the idle worker under a set flag is the
1000 ms sleep-and-recheck, which leaves the queue untouched. -/
theorem paused_blocks_queue_and_validator_witness :
    pausedWitnessState.urlQueue = pausedWitnessState.urlQueue ∧
    (∀ (i : Nat) (u : String), Label.pauseWait 0 ≠ Label.pop i u) ∧
    (∀ i : Nat, Label.pauseWait 0 ≠ Label.popSkip i) ∧
    pausedRecheckDelayMs = 1000 :=
  paused_blocks_queue_and_validator pausedWitnessState (Label.pauseWait 0)
    pausedWitnessState rfl
    (Step.pauseWait pausedWitnessState 0 rfl (by decide) rfl)

lemma step_preserves_done {s : RunState} {l : Label} {s₂ : RunState} {i : Nat}
    (hs : Step s l s₂) (hd : s.workers[i]? = some WorkerPC.done) :
    actorOf l ≠ some i ∧ s₂.workers[i]? = some WorkerPC.done := by
  cases hs with
  | exitLoop j hw hq =>
      by_cases hij : j = i
      · subst hij
        rw [hd] at hw
        exact absurd hw (by simp)
      · constructor
        · intro hact
          simp only [actorOf, Option.some_inj] at hact
          exact hij hact
        · simpa [List.getElem?_set_ne hij] using hd
  | pauseWait j hw hq hp =>
      by_cases hij : j = i
      · subst hij
        rw [hd] at hw
        exact absurd hw (by simp)
      · exact ⟨fun hact => hij (by simpa [actorOf] using hact), hd⟩
  | pop j url rest hw hq hp hu =>
      by_cases hij : j = i
      · subst hij
        rw [hd] at hw
        exact absurd hw (by simp)
      · constructor
        · intro hact
          simp only [actorOf, Option.some_inj] at hact
          exact hij hact
        · simpa [List.getElem?_set_ne hij] using hd
  | popSkip j rest hw hq hp =>
      by_cases hij : j = i
      · subst hij
        rw [hd] at hw
        exact absurd hw (by simp)
      · exact ⟨fun hact => hij (by simpa [actorOf] using hact), hd⟩
  | complete j url outcome hw =>
      by_cases hij : j = i
      · subst hij
        rw [hd] at hw
        exact absurd hw (by simp)
      · constructor
        · intro hact
          simp only [actorOf, Option.some_inj] at hact
          exact hij hact
        · simpa [List.getElem?_set_ne hij] using hd
  | wake j hw =>
      by_cases hij : j = i
      · subst hij
        rw [hd] at hw
        exact absurd hw (by simp)
      · constructor
        · intro hact
          simp only [actorOf, Option.some_inj] at hact
          exact hij hact
        · simpa [List.getElem?_set_ne hij] using hd
  | setPause b =>
      exact ⟨fun hact => Option.noConfusion hact, hd⟩

lemma done_permanent_aux {s₁ : RunState} {tr : List Label} {s₂ : RunState}
    (i : Nat) (hr : Reaches s₁ tr s₂)
    (hd : s₁.workers[i]? = some WorkerPC.done) :
    s₂.workers[i]? = some WorkerPC.done ∧ ∀ l ∈ tr, actorOf l ≠ some i := by
  induction hr with
  | refl => exact ⟨hd, by simp⟩
  | snoc hr hs ih =>
      obtain ⟨hmid, hacts⟩ := ih
      obtain ⟨hact, hfin⟩ := step_preserves_done hs hmid
      refine ⟨hfin, ?_⟩
      intro l₂ hl₂
      rcases List.mem_append.mp hl₂ with hin | hin
      · exact hacts l₂ hin
      · rw [List.mem_singleton.mp hin]
        exact hact

/-- C7: a worker that exits its loop after observing the empty queue is
permanently Done: in every later state reachable by any schedule it is still
Done, and no label of the continuation is an action of that worker — it never
again pops, validates, or updates shared state. -/
theorem worker_done_is_permanent (s s₁ : RunState) (i : Nat) (tr : List Label)
    (s₂ : RunState)
    (hexit : Step s (Label.exitLoop i) s₁)
    (hr : Reaches s₁ tr s₂) :
    s₂.workers[i]? = some WorkerPC.done ∧ ∀ l ∈ tr, actorOf l ≠ some i := by
  have h₁ : s₁.workers[i]? = some WorkerPC.done := by
    cases hexit
    next hq hw =>
      exact getElem?_set_self_of_lt _ _ _ (lt_length_of_getElem?_eq_some hw)
  exact done_permanent_aux i hr h₁

/-- Witness for C7: after the worker exits on the empty queue, a further step
(the external pause toggle) leaves it Done and involves no action of it. -/
theorem worker_done_is_permanent_witness :
    ({ doneWitnessDone with isPaused := true } : RunState).workers[0]? =
      some WorkerPC.done ∧
    ∀ l ∈ ([Label.setPause true] : List Label), actorOf l ≠ some 0 :=
  worker_done_is_permanent doneWitnessStart doneWitnessDone 0 [Label.setPause true]
    { doneWitnessDone with isPaused := true }
    (Step.exitLoop doneWitnessStart 0 rfl rfl)
    (Reaches.snoc (Reaches.refl doneWitnessDone) (Step.setPause doneWitnessDone true))

end SitemapCrawler
